import Mathlib

/-!
Verification development for the core of a Handlebars-compatible template
engine: the path-aware data navigator (`context.rs`) and parts of the
recursive renderer (`render.rs`).  The JSON-shaped data, the navigation
walk, context extension, truthiness, value rendering, local-variable
promotion/demotion and error enrichment are shallowly embedded below;
theorems at the end settle the specification's claims about them.
-/

namespace Hb

/-- Classification of the `f64` obtained from a `serde_json` number via
`as_f64`.  Rust's `f64::is_normal` is true exactly for the `normal` class
(neither zero, infinite, subnormal, nor NaN). -/
inductive FpCls where
  | nan
  | inf
  | zero
  | subnormal
  | normal
deriving DecidableEq, Repr

/-- A `serde_json` number, abstracted to the two observations the source makes
of it: its decimal rendering (`to_string`) and the classification of its
`as_f64` value (`none` models `as_f64` returning `None`). -/
structure JNum where
  toStr : String
  f64 : Option FpCls
deriving DecidableEq, Repr

/-- The `serde_json` `Value` (aliased `Json` in `context.rs`).  An `Object` is a
`BTreeMap<String, Json>`, modelled as an association list sorted strictly by
key; the `BTreeMap` sortedness invariant is carried as a hypothesis where a
theorem needs it. -/
inductive Json where
  | null
  | bool (b : Bool)
  | num (n : JNum)
  | str (s : String)
  | arr (elems : List Json)
  | obj (fields : List (String × Json))
deriving Repr

/-- `data.as_object()`. -/
def Json.as_object : Json → Option (List (String × Json))
  | .obj m => some m
  | _ => none

def Json.isNull : Json → Bool
  | .null => true
  | _ => false

def Json.isObj : Json → Bool
  | .obj _ => true
  | _ => false

/-- Array and Object are the container shapes of the navigation walk; every
other shape falls into its `_ => &DEFAULT_VALUE` arm. -/
def Json.isContainer : Json → Bool
  | .arr _ => true
  | .obj _ => true
  | _ => false

/-- `BTreeMap::get`: association-list lookup (first match; keys of a real
`BTreeMap` are unique). -/
def lookupA : List (String × Json) → String → Option Json
  | [], _ => none
  | (a, b) :: t, k => if a = k then some b else lookupA t k

/-! ## Path parsing

The grammar module of the repository is not under `src/`; the segment tokens
and the parser below are modelled from the spec.  -/

/-- Modelled from the spec: the `PathSegment` tag set produced by the path
grammar (`Rule::path_up`, `path_id`, `path_raw_id`, `path_num_id`).  The
structural markers (`Var`, `Idx`, `Key`) are ignored by the navigator and are
not produced here. -/
inductive PathSeg where
  | up
  | id (s : String)
  | rawId (s : String)
  | numId (s : String)
deriving DecidableEq, Repr

/-- Identifier characters of the path grammar: alphanumerics and underscore. -/
def identChar (c : Char) : Bool := c.isAlphanum || c = '_'

/-- An all-digit run is a `path_num_id` token, any other identifier run a
`path_id` token (the navigator treats both alike). -/
def mkIdentSeg (cs : List Char) : PathSeg :=
  if cs.all Char.isDigit then .numId ⟨cs⟩ else .id ⟨cs⟩

/-- Modelled from the spec: scanner for the path grammar
`path := segment (sep segment)*`, `sep ∈ {'.', '/'}`,
`segment ∈ {id, num_id, '[' quoted_or_raw_id ']', '../', 'this'}` with quotes
`"…"` or `'…'`.  The fuel argument is the length of the remaining input; every
step consumes at least one character, so fuel never runs out when the scanner
is started with the input's length. -/
def scanSegs : Nat → List Char → Option (List PathSeg)
  | _, [] => some []
  | 0, _ :: _ => none
  | fuel + 1, '.' :: '.' :: rest => (scanSegs fuel rest).map (PathSeg.up :: ·)
  | fuel + 1, '.' :: rest => scanSegs fuel rest
  | fuel + 1, '/' :: rest => scanSegs fuel rest
  | fuel + 1, '[' :: '"' :: rest =>
      (match rest.dropWhile (· ≠ '"') with
        | '"' :: ']' :: rem =>
            (scanSegs fuel rem).map (PathSeg.rawId ⟨rest.takeWhile (· ≠ '"')⟩ :: ·)
        | _ => none)
  | fuel + 1, '[' :: '\'' :: rest =>
      (match rest.dropWhile (· ≠ '\'') with
        | '\'' :: ']' :: rem =>
            (scanSegs fuel rem).map (PathSeg.rawId ⟨rest.takeWhile (· ≠ '\'')⟩ :: ·)
        | _ => none)
  | fuel + 1, '[' :: rest =>
      (match rest.dropWhile (· ≠ ']') with
        | ']' :: rem =>
            (scanSegs fuel rem).map (PathSeg.rawId ⟨rest.takeWhile (· ≠ ']')⟩ :: ·)
        | _ => none)
  | fuel + 1, c :: rest =>
      if identChar c then
        (scanSegs fuel ((c :: rest).dropWhile identChar)).map
          (mkIdentSeg ((c :: rest).takeWhile identChar) :: ·)
      else none

/-- Modelled from the spec: the pure path parser `parse_path(str) →
sequence<PathSegment>`; `none` models the pest rule `path` failing.  The empty
string matches no segment and fails; a string of separators only (such as the
top-level base path `"."`) yields an empty token list. -/
def parsePath (s : String) : Option (List PathSeg) :=
  match s.data with
  | [] => none
  | cs => scanSegs cs.length cs

/-- One step of `parse_json_visitor_inner`'s loop over the token queue: a
`path_up` token pops the back of the path stack, identifier tokens push their
text. -/
def applySeg (stack : List String) : PathSeg → List String
  | .up => stack.dropLast
  | .id s => stack ++ [s]
  | .rawId s => stack ++ [s]
  | .numId s => stack ++ [s]

def applySegs (stack : List String) (segs : List PathSeg) : List String :=
  segs.foldl applySeg stack

/-- `parse_json_visitor_inner`: parse the path; on success fold its tokens over
the stack, on failure leave the stack untouched. -/
def parse_json_visitor_inner (stack : List String) (path : String) : List String :=
  match parsePath path with
  | none => stack
  | some segs => applySegs stack segs

/-- Number of leading `path_up` tokens of the relative path (the loop that
increments `path_context_depth`, which starts at `-1`; a count of `k` leaves
the depth at `k - 1`). -/
def leadingUps : List PathSeg → Nat
  | .up :: t => leadingUps t + 1
  | _ => 0

/-- `parse_json_visitor`: when the relative path has `k ≥ 1` leading `Up`
tokens, the starting base is `path_context[k-1]` when present and `base_path`
otherwise; then the tokens of the relative path are folded on top. -/
def parse_json_visitor (base_path : String) (path_context : List String)
    (relative_path : String) : List String :=
  match parsePath relative_path with
  | none => []
  | some segs =>
      let start :=
        if 0 < leadingUps segs then
          parse_json_visitor_inner []
            ((path_context.get? (leadingUps segs - 1)).getD base_path)
        else
          parse_json_visitor_inner [] base_path
      applySegs start segs

/-! ## The navigation walk -/

/-- Rust's `str::parse::<usize>`: an optional leading `'+'`, then one or more
ASCII digits, rejecting overflow of the 64-bit `usize`. -/
def parseUsize (s : String) : Option Nat :=
  let cs := match s.data with
    | '+' :: rest => rest
    | cs => cs
  if cs.isEmpty then none
  else if cs.all Char.isDigit then
    let v := cs.foldl (fun a c => a * 10 + (c.toNat - '0'.toNat)) 0
    if v < 2 ^ 64 then some v else none
  else none

/-- The loop body of `Context::navigate` (without the `this` skip): an Array is
indexed by `p.parse::<usize>()` with failures and out-of-range indices yielding
`DEFAULT_VALUE` (Null), an Object is looked up by key with Null for missing
keys, and any other shape yields Null. -/
def walkStep (data : Json) (p : String) : Json :=
  match data with
  | .arr l =>
      match parseUsize p with
      | some idx => (l.get? idx).getD .null
      | none => .null
  | .obj m => (lookupA m p).getD .null
  | _ => .null

/-- The skip condition of the walk:
`*p == "this" && data.as_object().and_then(|m| m.get("this")).is_none()`. -/
def thisSkip (data : Json) (p : String) : Bool :=
  p == "this" && ((Json.as_object data).bind (fun m => lookupA m "this")).isNone

/-- The data walk of `Context::navigate` over the assembled path stack. -/
def walk : Json → List String → Json
  | d, [] => d
  | d, p :: ps => if thisSkip d p then walk d ps else walk (walkStep d p) ps

/-- The context wraps the data the templates render on. -/
structure Context where
  data : Json

/-- `Context::navigate`. -/
def Context.navigate (c : Context) (base_path : String) (path_context : List String)
    (relative_path : String) : Json :=
  walk c.data (parse_json_visitor base_path path_context relative_path)

/-! ## Context extension (`merge_json`, `Context::extend`) -/

/-- `BTreeMap::insert` on the sorted association-list representation: replace
the entry of an existing key, otherwise insert at the key's ordered position. -/
def insertBTree (k : String) (v : Json) : List (String × Json) → List (String × Json)
  | [] => [(k, v)]
  | (a, b) :: t =>
      if k < a then (k, v) :: (a, b) :: t
      else if k = a then (k, v) :: t
      else (a, b) :: insertBTree k v t

/-- The `for (k, v) in addition.iter() { base_map.insert(...) }` loop of
`merge_json`. -/
def applyInserts (m : List (String × Json)) (addition : List (String × Json)) :
    List (String × Json) :=
  addition.foldl (fun acc kv => insertBTree kv.1 kv.2 acc) m

/-- The `base_map` of `merge_json`: an Object's own map, and otherwise a fresh
map holding the old value under the key `this`. -/
def baseMap (base : Json) : List (String × Json) :=
  match base with
  | .obj m => m
  | _ => insertBTree "this" base []

/-- `merge_json`. -/
def merge_json (base : Json) (addition : List (String × Json)) : Json :=
  .obj (applyInserts (baseMap base) addition)

/-- `Context::extend`: a new context is built from the merged data; the
receiver is a pure argument and is left untouched. -/
def Context.extend (c : Context) (hash : List (String × Json)) : Context :=
  ⟨merge_json c.data hash⟩

/-- The `BTreeMap` sortedness invariant at the top level of a context's data,
as Rust's `BTreeMap<String, Json>` maintains it. -/
def keyLB (a : String) (m : List (String × Json)) : Prop := ∀ p ∈ m, a < p.1

def sortedMap : List (String × Json) → Prop
  | [] => True
  | p :: t => keyLB p.1 t ∧ sortedMap t

def Context.topSorted (c : Context) : Prop :=
  match c.data with
  | .obj m => sortedMap m
  | _ => True

/-- Lookup of the last write of a key in the addition sequence. -/
def lookupLast (h : List (String × Json)) (k : String) : Option Json :=
  lookupA h.reverse k

/-! ## Truthiness and rendering of values -/

/-- Rust's `f64::is_normal`. -/
def fpIsNormal : FpCls → Bool
  | .normal => true
  | _ => false

def fpIsFinite : FpCls → Bool
  | .nan => false
  | .inf => false
  | _ => true

def fpIsZero : FpCls → Bool
  | .zero => true
  | _ => false

def fpIsSubnormal : FpCls → Bool
  | .subnormal => true
  | _ => false

/-- `JsonTruthy::is_truthy` of `context.rs`: a Number is truthy when
`n.as_f64().map(|f| f.is_normal()).unwrap_or(false)`. -/
def Json.is_truthy : Json → Bool
  | .bool b => b
  | .num n => (n.f64.map fpIsNormal).getD false
  | .null => false
  | .str s => decide (0 < s.length)
  | .arr l => decide (0 < l.length)
  | .obj m => decide (0 < m.length)

/-- Modelled from the spec: the spec's own reading of number truthiness,
"Number is true when finite and nonzero", used to compare the spec sentence
against the source's `is_normal`. -/
def specNumberTruthy (cls : FpCls) : Bool := fpIsFinite cls && !fpIsZero cls

mutual

/-- `JsonRender::render` of `context.rs`: Strings unquoted, Bool/Number in
decimal, Null empty, an Array as `[` then every element followed by `", "`
then `]`, an Object as `[object]`. -/
def Json.render : Json → String
  | .str s => s
  | .bool b => if b then "true" else "false"
  | .num n => n.toStr
  | .null => ""
  | .arr a => "[" ++ Json.renderItems a ++ "]"
  | .obj _ => "[object]"

/-- The element loop of Array rendering: each element's rendering followed by
`", "`, the trailing separator included. -/
def Json.renderItems : List Json → String
  | [] => ""
  | i :: rest => Json.render i ++ ", " ++ Json.renderItems rest

end

/-! ## Render errors and enrichment (`render.rs`) -/

/-- `RenderError`. -/
structure RenderError where
  desc : String
  template_name : Option String
  line_no : Option Nat
  column_no : Option Nat
deriving DecidableEq, Repr

/-- The line/column part of the enrichment closures in both
`Renderable for Template` and `Evaluable for Template` (the two are
textually identical in the source): when `line_no` is unset and the template
has a mapping entry at the element's ordinal, fill `line_no` and
`column_no` from it. -/
def fillLineCol (mapping : Option (List (Nat × Nat))) (idx : Nat)
    (e : RenderError) : RenderError :=
  if e.line_no.isNone then
    match mapping with
    | some mp =>
        match mp.get? idx with
        | some lc => { e with line_no := some lc.1, column_no := some lc.2 }
        | none => e
    | none => e
  else e

/-- The enrichment applied by `Renderable for Template` to a child error:
line/column filled only when unset, then `template_name` stamped only when
unset. -/
def renderEnrich (name : Option String) (mapping : Option (List (Nat × Nat)))
    (idx : Nat) (e : RenderError) : RenderError :=
  let e1 := fillLineCol mapping idx e
  if e1.template_name.isNone then { e1 with template_name := name } else e1

/-- The enrichment applied by `Evaluable for Template` to a child error:
line/column filled only when unset, but `template_name` assigned
unconditionally (`e.template_name = self.name.clone();`). -/
def evalEnrich (name : Option String) (mapping : Option (List (Nat × Nat)))
    (idx : Nat) (e : RenderError) : RenderError :=
  let e1 := fillLineCol mapping idx e
  { e1 with template_name := name }

/-! ## Local-variable promotion and demotion (`RenderContext`) -/

/-- The byte slice `&key[n..]` of `promote_local_vars`/`demote_local_vars`,
taken at character granularity (the sliced-off prefixes `"@"` and `"@../"` are
ASCII, so the two coincide). -/
def strDropChars (s : String) (n : Nat) : String := ⟨s.data.drop n⟩

/-- `str::starts_with` on the same character-granularity model. -/
def strStartsWith (s p : String) : Bool := p.data.isPrefixOf s.data

/-- `RenderContext::promote_local_vars`: every key `@x` is rewritten to
`@../x` by prepending `"@../"` to `&key[1..]`.  The local-variable table is a
`HashMap`; the model fixes one iteration order by holding the entries as a
list. -/
def promote_local_vars (m : List (String × Json)) : List (String × Json) :=
  m.map (fun kv => ("@../" ++ strDropChars kv.1 1, kv.2))

/-- `RenderContext::demote_local_vars`: keys starting with `"@../"` are
rewritten to `'@' ++ &key[4..]`; entries without that prefix are dropped. -/
def demote_local_vars (m : List (String × Json)) : List (String × Json) :=
  m.filterMap (fun kv =>
    if strStartsWith kv.1 "@../" then some ("@" ++ strDropChars kv.1 4, kv.2)
    else none)

/-! ## The renderer fragment for expressions and subexpressions (`render.rs`)

The template AST lives in `template.rs`, which is not under `src/`; the
`Parameter` and `TemplateElement` shapes below are modelled from the spec,
restricted to the element kinds whose render arms are free of registry
helper/decorator/partial calls (`RawString`, `Expression`, `HTMLExpression`,
`Comment`); a `Subexpression` holds the template it renders.  The render arms
themselves, `Parameter::expand`, `Parameter::expand_as_name` (its
subexpression branch) and `RenderContext::evaluate_in_block_context` are
translated from `render.rs`; the writer is modelled by returning the appended
output, and `derive()` with a redirected writer by rendering with an updated
context into a separate capture. -/

mutual

inductive Parameter where
  | name (s : String)
  | literal (j : Json)
  | subexpression (t : List TemplateElement)

inductive TemplateElement where
  | rawString (s : String)
  | expression (p : Parameter)
  | htmlExpression (p : Parameter)
  | comment (s : String)

end

/-- `ContextJson`: a resolved value with the relative path it was referenced
by, `none` for literals and computed results. -/
structure ContextJson where
  path : Option String
  value : Json

/-- The registry surface the modelled fragment consumes: the escape function
`get_escape_fn()`. -/
structure Registry where
  escape_fn : String → String

/-- The fields of `RenderContext` the modelled fragment reads. -/
structure RenderCtx where
  path : String
  local_path_root : List String
  local_variables : List (String × Json)
  block_context : List Context
  context : Context
  disable_escape : Bool

/-- `RenderContext::evaluate_in_block_context`: the first non-null navigation
result for the name over the block-context stack, else `none`. -/
def evaluate_in_block_context (rc : RenderCtx) (local_path : String) : Option Json :=
  go rc.block_context
where
  go : List Context → Option Json
    | [] => none
    | bc :: t =>
        if (bc.navigate "." rc.local_path_root local_path).isNull then go t
        else some (bc.navigate "." rc.local_path_root local_path)

mutual

/-- `Parameter::expand`: a name resolves through local variables, then block
contexts, then navigation of the root context; a literal is wrapped with path
`None`; a subexpression is rendered into a capture buffer in a derived context
with `disable_escape` set to true and the captured text wrapped as a String
with path `None`. -/
def Parameter.expand (reg : Registry) (rc : RenderCtx) : Parameter → ContextJson
  | .name n =>
      match lookupA rc.local_variables n with
      | some v => ⟨none, v⟩
      | none =>
          ⟨some n,
            match evaluate_in_block_context rc n with
            | some v => v
            | none => rc.context.navigate rc.path rc.local_path_root n⟩
  | .literal j => ⟨none, j⟩
  | .subexpression t =>
      ⟨none, Json.str (renderElems reg { rc with disable_escape := true } t)⟩

/-- `TemplateElement::render` for the modelled element kinds: raw text is
written verbatim; an `Expression` renders its expanded parameter and pipes it
through the registry's escape function unless `disable_escape` is set; an
`HTMLExpression` writes the rendered value unescaped; a comment writes
nothing. -/
def renderElem (reg : Registry) (rc : RenderCtx) : TemplateElement → String
  | .rawString v => v
  | .expression v =>
      if !rc.disable_escape then reg.escape_fn ((Parameter.expand reg rc v).value.render)
      else (Parameter.expand reg rc v).value.render
  | .htmlExpression v => (Parameter.expand reg rc v).value.render
  | .comment _ => ""

/-- `Template::render`'s element loop, as the concatenation of the output the
elements append to the writer. -/
def renderElems (reg : Registry) (rc : RenderCtx) : List TemplateElement → String
  | [] => ""
  | e :: es => renderElem reg rc e ++ renderElems reg rc es

end

/-! ## Helper lemmas -/

theorem strMk_data (s : String) : (⟨s.data⟩ : String) = s := by
  cases s
  rfl

theorem strDropChars_one_append (x : String) : strDropChars ("@" ++ x) 1 = x := by
  unfold strDropChars
  rw [String.data_append]
  exact strMk_data x

theorem strDropChars_four_append (x : String) : strDropChars ("@../" ++ x) 4 = x := by
  unfold strDropChars
  rw [String.data_append]
  exact strMk_data x

theorem strStartsWith_four_append (x : String) :
    strStartsWith ("@../" ++ x) "@../" = true := by
  unfold strStartsWith
  rw [String.data_append]
  rw [List.isPrefixOf_iff_prefix]
  exact List.prefix_append _ _

theorem lookupA_insertBTree (m : List (String × Json)) (k : String) (v : Json)
    (k' : String) :
    lookupA (insertBTree k v m) k' = if k = k' then some v else lookupA m k' := by
  induction m with
  | nil => simp [insertBTree, lookupA]
  | cons p t ih =>
      obtain ⟨a, b⟩ := p
      by_cases h1 : k < a
      · simp [insertBTree, h1, lookupA]
      · by_cases h2 : k = a
        · subst h2
          simp only [insertBTree, if_neg h1, if_pos rfl, lookupA]
          by_cases h3 : k = k' <;> simp [h3]
        · simp only [insertBTree, if_neg h1, if_neg h2, lookupA, ih]
          by_cases h3 : a = k'
          · by_cases h4 : k = k'
            · exact absurd (h4.trans h3.symm) h2
            · simp [h3, h4]
          · by_cases h4 : k = k' <;> simp [h3, h4]

theorem keyLB_insertBTree : ∀ {m : List (String × Json)} {lb k : String} {v : Json},
    keyLB lb m → lb < k → keyLB lb (insertBTree k v m)
  | [], _, _, _, _, hk => by
      intro p hp
      simp only [insertBTree, List.mem_singleton] at hp
      subst hp
      exact hk
  | (a, b) :: t, lb, k, v, hm, hk => by
      have ha : lb < a := hm (a, b) (List.mem_cons_self _ _)
      have ht : keyLB lb t := fun p hp => hm p (List.mem_cons_of_mem _ hp)
      intro p hp
      by_cases h1 : k < a
      · simp only [insertBTree, if_pos h1] at hp
        rcases List.mem_cons.mp hp with rfl | hp
        · exact hk
        · exact hm p hp
      · by_cases h2 : k = a
        · simp only [insertBTree, if_neg h1, if_pos h2] at hp
          rcases List.mem_cons.mp hp with rfl | hp
          · exact hk
          · exact ht p hp
        · simp only [insertBTree, if_neg h1, if_neg h2] at hp
          rcases List.mem_cons.mp hp with rfl | hp
          · exact ha
          · exact keyLB_insertBTree ht hk p hp

theorem sortedMap_insertBTree : ∀ {m : List (String × Json)} (k : String) (v : Json),
    sortedMap m → sortedMap (insertBTree k v m)
  | [], k, v, _ => ⟨fun p hp => absurd hp (List.not_mem_nil p), trivial⟩
  | (a, b) :: t, k, v, hs => by
      obtain ⟨hlb, ht⟩ := hs
      by_cases h1 : k < a
      · simp only [insertBTree, if_pos h1]
        refine ⟨?_, hlb, ht⟩
        intro p hp
        rcases List.mem_cons.mp hp with rfl | hp
        · exact h1
        · exact lt_trans h1 (hlb p hp)
      · by_cases h2 : k = a
        · subst h2
          simp only [insertBTree, if_neg h1, if_pos rfl]
          exact ⟨hlb, ht⟩
        · have h3 : a < k := lt_of_le_of_ne (not_lt.mp h1) (fun e => h2 e.symm)
          simp only [insertBTree, if_neg h1, if_neg h2]
          exact ⟨keyLB_insertBTree hlb h3, sortedMap_insertBTree k v ht⟩

theorem lookupA_eq_none_of_keyLB : ∀ {m : List (String × Json)} {a : String},
    keyLB a m → lookupA m a = none
  | [], _, _ => rfl
  | (x, y) :: t, a, h => by
      have hx : a < x := h (x, y) (List.mem_cons_self _ _)
      simp only [lookupA, if_neg (ne_of_gt hx)]
      exact lookupA_eq_none_of_keyLB (fun q hq => h q (List.mem_cons_of_mem _ hq))

theorem lookupA_some_mem : ∀ {m : List (String × Json)} {k : String} {v : Json},
    lookupA m k = some v → ∃ p ∈ m, p.1 = k
  | [], _, _, h => by simp [lookupA] at h
  | (x, y) :: t, k, v, h => by
      by_cases hx : x = k
      · exact ⟨(x, y), List.mem_cons_self _ _, hx⟩
      · simp only [lookupA, if_neg hx] at h
        obtain ⟨q, hq, hq1⟩ := lookupA_some_mem h
        exact ⟨q, List.mem_cons_of_mem _ hq, hq1⟩

theorem sortedMap_ext : ∀ {m m' : List (String × Json)}, sortedMap m → sortedMap m' →
    (∀ k, lookupA m k = lookupA m' k) → m = m'
  | [], [], _, _, _ => rfl
  | [], (a, b) :: t, _, _, hl => by
      have h := hl a
      simp [lookupA] at h
  | (a, b) :: t, [], _, _, hl => by
      have h := hl a
      simp [lookupA] at h
  | (a, b) :: t, (a', b') :: t', hs, hs', hl => by
      obtain ⟨hlb, ht⟩ := hs
      obtain ⟨hlb', ht'⟩ := hs'
      have haa : a = a' := by
        by_contra hne
        have h1 : lookupA ((a', b') :: t') a = some b := by
          rw [← hl a]
          simp [lookupA]
        simp only [lookupA, if_neg (Ne.symm hne)] at h1
        obtain ⟨p, hp, hp1⟩ := lookupA_some_mem h1
        have hlt1 : a' < a := hp1 ▸ hlb' p hp
        have h2 : lookupA ((a, b) :: t) a' = some b' := by
          rw [hl a']
          simp [lookupA]
        simp only [lookupA, if_neg hne] at h2
        obtain ⟨q, hq, hq1⟩ := lookupA_some_mem h2
        have hlt2 : a < a' := hq1 ▸ hlb q hq
        exact absurd hlt1 (lt_asymm hlt2)
      subst haa
      have hbb : b = b' := by
        have h := hl a
        simpa [lookupA] using h
      subst hbb
      have htt : t = t' := sortedMap_ext ht ht' (fun k => by
        by_cases hk : a = k
        · subst hk
          rw [lookupA_eq_none_of_keyLB hlb, lookupA_eq_none_of_keyLB hlb']
        · have h := hl k
          simpa [lookupA, if_neg hk] using h)
      rw [htt]

theorem applyInserts_cons (m : List (String × Json)) (kv : String × Json)
    (t : List (String × Json)) :
    applyInserts m (kv :: t) = applyInserts (insertBTree kv.1 kv.2 m) t := rfl

theorem lookupA_append (l l' : List (String × Json)) (k : String) :
    lookupA (l ++ l') k = (lookupA l k).or (lookupA l' k) := by
  induction l with
  | nil => simp [lookupA]
  | cons p t ih =>
      obtain ⟨a, b⟩ := p
      by_cases h : a = k <;> simp [lookupA, h, ih]

theorem lookupLast_cons (a : String) (b : Json) (t : List (String × Json))
    (k : String) :
    lookupLast ((a, b) :: t) k
      = (lookupLast t k).or (if a = k then some b else none) := by
  unfold lookupLast
  rw [List.reverse_cons, lookupA_append]
  congr 1

theorem lookupA_applyInserts : ∀ (h : List (String × Json)) (m : List (String × Json))
    (k : String), lookupA (applyInserts m h) k = (lookupLast h k).or (lookupA m k)
  | [], m, k => by simp [applyInserts, lookupLast, lookupA]
  | (a, b) :: t, m, k => by
      rw [applyInserts_cons, lookupA_applyInserts t _ k, lookupA_insertBTree,
        lookupLast_cons]
      cases hL : lookupLast t k <;> by_cases h : a = k <;> simp [h]

theorem sortedMap_applyInserts : ∀ (h : List (String × Json))
    {m : List (String × Json)}, sortedMap m → sortedMap (applyInserts m h)
  | [], _, hs => hs
  | kv :: t, _, hs => sortedMap_applyInserts t (sortedMap_insertBTree kv.1 kv.2 hs)

theorem applyInserts_idem {m : List (String × Json)} (h : List (String × Json))
    (hs : sortedMap m) : applyInserts (applyInserts m h) h = applyInserts m h := by
  apply sortedMap_ext (sortedMap_applyInserts h (sortedMap_applyInserts h hs))
    (sortedMap_applyInserts h hs)
  intro k
  rw [lookupA_applyInserts, lookupA_applyInserts]
  cases lookupLast h k <;> simp

theorem sortedMap_baseMap {c : Context} (h : Context.topSorted c) :
    sortedMap (baseMap c.data) := by
  unfold Context.topSorted at h
  unfold baseMap
  cases hd : c.data
  case obj m => rw [hd] at h; exact h
  all_goals exact ⟨fun p hp => absurd hp (List.not_mem_nil p), trivial⟩

/-! ## Claim theorems -/

/-- Claim C7: for local-variable maps whose keys all have the form `@x`,
`demote_local_vars` undoes `promote_local_vars`; `promote_local_vars` rewrites
every key `@x` to `@../x`, and `demote_local_vars` strips one leading `@../`
and drops every entry whose key lacks that prefix. -/
theorem claim_C7 :
    (∀ m : List (String × Json), (∀ kv ∈ m, ∃ x : String, kv.1 = "@" ++ x) →
      demote_local_vars (promote_local_vars m) = m)
    ∧ (∀ (k : String) (v : Json) (t : List (String × Json)),
        strStartsWith k "@../" = false →
        demote_local_vars ((k, v) :: t) = demote_local_vars t) := by
  constructor
  · intro m hm
    induction m with
    | nil => rfl
    | cons kv t ih =>
        obtain ⟨k, v⟩ := kv
        obtain ⟨x, hx⟩ := hm (k, v) (List.mem_cons_self _ _)
        have ht := ih (fun p hp => hm p (List.mem_cons_of_mem _ hp))
        dsimp only at hx
        subst hx
        simp only [promote_local_vars, demote_local_vars, List.map_cons,
          List.filterMap_cons, strDropChars_one_append, strStartsWith_four_append,
          strDropChars_four_append, if_true]
        simp only [promote_local_vars, demote_local_vars] at ht
        rw [ht]
  · intro k v t h
    simp [demote_local_vars, List.filterMap_cons, h]

/-- Witness for C7 at the map `[("@index", null)]`. -/
theorem claim_C7_witness :
    demote_local_vars (promote_local_vars [("@index", Json.null)])
      = [("@index", Json.null)] :=
  claim_C7.1 [("@index", Json.null)]
    (fun p hp => ⟨"index", by
      have hp' : p = ("@index", Json.null) := by simpa using hp
      subst hp'
      rfl⟩)

/-- Counterexample to claim C8 as stated: a subnormal number is finite and
nonzero — the spec's "finite and nonzero" reading makes it truthy — yet the
source's `is_normal`-based `is_truthy` returns false on it. -/
theorem claim_C8_counterexample :
    Json.is_truthy (Json.num ⟨"1e-320", some FpCls.subnormal⟩) = false
    ∧ specNumberTruthy FpCls.subnormal = true :=
  ⟨rfl, rfl⟩

/-- Claim C8 (amended): `is_truthy` returns a Bool's own value, false for
Null, non-emptiness for String/Array/Object, and for a Number it is true
exactly when the `as_f64` value is classified normal — finite, nonzero AND not
subnormal (false as well when `as_f64` yields nothing). -/
theorem claim_C8 :
    (∀ b, Json.is_truthy (.bool b) = b)
    ∧ Json.is_truthy .null = false
    ∧ (∀ s, Json.is_truthy (.str s) = decide (0 < s.length))
    ∧ (∀ l, Json.is_truthy (.arr l) = decide (0 < l.length))
    ∧ (∀ m, Json.is_truthy (.obj m) = decide (0 < m.length))
    ∧ (∀ (n : JNum) (cls : FpCls), n.f64 = some cls →
        Json.is_truthy (.num n) = (fpIsFinite cls && !fpIsZero cls && !fpIsSubnormal cls))
    ∧ (∀ n : JNum, n.f64 = none → Json.is_truthy (.num n) = false) := by
  refine ⟨fun b => rfl, rfl, fun s => rfl, fun l => rfl, fun m => rfl, ?_, ?_⟩
  · intro n cls h
    cases cls <;>
      simp [Json.is_truthy, h, fpIsNormal, fpIsFinite, fpIsZero, fpIsSubnormal]
  · intro n h
    simp [Json.is_truthy, h]

/-- Witness for C8 at a normal number and at a number without an `f64`. -/
theorem claim_C8_witness :
    Json.is_truthy (Json.num ⟨"0.5", some FpCls.normal⟩)
      = (fpIsFinite FpCls.normal && !fpIsZero FpCls.normal && !fpIsSubnormal FpCls.normal)
    ∧ Json.is_truthy (Json.num ⟨"x", none⟩) = false :=
  ⟨claim_C8.2.2.2.2.2.1 ⟨"0.5", some FpCls.normal⟩ FpCls.normal rfl,
   claim_C8.2.2.2.2.2.2 ⟨"x", none⟩ rfl⟩

theorem renderItems_join (l : List Json) :
    Json.renderItems l = String.join (l.map (fun e => Json.render e ++ ", ")) := by
  induction l with
  | nil => rfl
  | cons e t ih =>
      show Json.render e ++ ", " ++ Json.renderItems t = _
      rw [ih]
      apply String.ext
      simp [String.data_join, String.data_append]

/-- Claim C9: an Array renders as `[`, then every element rendered recursively
with `", "` appended after each one — the last included — then `]`; so
`[a, b]` renders exactly as `"[a, b, ]"` and `[]` renders as `"[]"`. -/
theorem claim_C9 :
    (∀ elems : List Json,
      Json.render (.arr elems)
        = "[" ++ String.join (elems.map (fun e => Json.render e ++ ", ")) ++ "]")
    ∧ Json.render (.arr []) = "[]"
    ∧ (∀ a b : Json,
      Json.render (.arr [a, b])
        = "[" ++ Json.render a ++ ", " ++ Json.render b ++ ", ]") := by
  refine ⟨?_, rfl, ?_⟩
  · intro elems
    show "[" ++ Json.renderItems elems ++ "]" = _
    rw [renderItems_join]
  · intro a b
    show "[" ++ (Json.render a ++ ", " ++ (Json.render b ++ ", " ++ "")) ++ "]" = _
    apply String.ext
    simp [String.data_append]

/-- Counterexample to claim C4 as stated: during directive evaluation
(`Evaluable for Template`), an already populated `template_name` of the inner
error is overwritten by the enclosing frame's name. -/
theorem claim_C4_counterexample :
    (evalEnrich (some "outer") none 0
      { desc := "boom", template_name := some "inner",
        line_no := some 2, column_no := some 3 }).template_name = some "outer"
    ∧ some "outer" ≠ (some "inner" : Option String) :=
  ⟨rfl, by decide⟩

/-- Claim C4 (amended): `line_no`/`column_no` enrichment is one-shot in both
the rendering and the directive-evaluation frames — once `line_no` is set,
neither field changes; `template_name` is stamped only when unset during
rendering; but during directive evaluation the enclosing frame overwrites
`template_name` with its own name unconditionally.  When `line_no` is unset
and the mapping has an entry at the element's ordinal, the rendering frame
fills both fields from it. -/
theorem fillLineCol_of_line_set {mp : Option (List (Nat × Nat))} {idx : Nat}
    {e : RenderError} (h : e.line_no.isSome) : fillLineCol mp idx e = e := by
  cases hl : e.line_no with
  | none => simp [hl] at h
  | some l => simp [fillLineCol, hl]

theorem fillLineCol_template_name (mp : Option (List (Nat × Nat))) (idx : Nat)
    (e : RenderError) : (fillLineCol mp idx e).template_name = e.template_name := by
  unfold fillLineCol
  split
  · cases mp with
    | none => rfl
    | some mpl =>
        cases hg : mpl.get? idx with
        | none => rw [List.get?_eq_getElem?] at hg; simp [hg]
        | some lc => rw [List.get?_eq_getElem?] at hg; simp [hg]
  · rfl

theorem fillLineCol_fills {mpl : List (Nat × Nat)} {idx : Nat} {e : RenderError}
    {lc : Nat × Nat} (h : e.line_no = none) (hg : mpl.get? idx = some lc) :
    fillLineCol (some mpl) idx e
      = { e with line_no := some lc.1, column_no := some lc.2 } := by
  rw [List.get?_eq_getElem?] at hg
  simp [fillLineCol, h, hg]

theorem renderEnrich_line_no (name : Option String) (mp : Option (List (Nat × Nat)))
    (idx : Nat) (e : RenderError) :
    (renderEnrich name mp idx e).line_no = (fillLineCol mp idx e).line_no := by
  simp only [renderEnrich]
  split <;> rfl

theorem renderEnrich_column_no (name : Option String) (mp : Option (List (Nat × Nat)))
    (idx : Nat) (e : RenderError) :
    (renderEnrich name mp idx e).column_no = (fillLineCol mp idx e).column_no := by
  simp only [renderEnrich]
  split <;> rfl

theorem claim_C4 :
    (∀ (name : Option String) (mp : Option (List (Nat × Nat))) (idx : Nat)
        (e : RenderError), e.line_no.isSome →
      (renderEnrich name mp idx e).line_no = e.line_no
      ∧ (renderEnrich name mp idx e).column_no = e.column_no
      ∧ (evalEnrich name mp idx e).line_no = e.line_no
      ∧ (evalEnrich name mp idx e).column_no = e.column_no)
    ∧ (∀ (name : Option String) (mp : Option (List (Nat × Nat))) (idx : Nat)
        (e : RenderError), e.template_name.isSome →
      (renderEnrich name mp idx e).template_name = e.template_name)
    ∧ (∀ (name : Option String) (mp : Option (List (Nat × Nat))) (idx : Nat)
        (e : RenderError), (evalEnrich name mp idx e).template_name = name)
    ∧ (∀ (name : Option String) (mpl : List (Nat × Nat)) (idx : Nat)
        (e : RenderError) (lc : Nat × Nat), e.line_no = none →
        mpl.get? idx = some lc →
      (renderEnrich name (some mpl) idx e).line_no = some lc.1
      ∧ (renderEnrich name (some mpl) idx e).column_no = some lc.2) := by
  refine ⟨?_, ?_, ?_, ?_⟩
  · intro name mp idx e h
    have hf := @fillLineCol_of_line_set mp idx e h
    refine ⟨?_, ?_, ?_, ?_⟩
    · rw [renderEnrich_line_no, hf]
    · rw [renderEnrich_column_no, hf]
    · show (fillLineCol mp idx e).line_no = e.line_no
      rw [hf]
    · show (fillLineCol mp idx e).column_no = e.column_no
      rw [hf]
  · intro name mp idx e h
    simp only [renderEnrich]
    rw [if_neg]
    · exact fillLineCol_template_name mp idx e
    · rw [fillLineCol_template_name]
      cases ht : e.template_name with
      | none => simp [ht] at h
      | some t => simp
  · intro name mp idx e
    rfl
  · intro name mpl idx e lc h hget
    constructor
    · rw [renderEnrich_line_no, fillLineCol_fills h hget]
    · rw [renderEnrich_column_no, fillLineCol_fills h hget]

/-- Witness for C4 at concrete errors: one with location and name set, one
with `line_no` unset and a mapping entry present. -/
theorem claim_C4_witness :
    (renderEnrich (some "o") (some [(9, 9)]) 0
        { desc := "d", template_name := some "t",
          line_no := some 1, column_no := some 2 }).line_no = some 1
    ∧ (renderEnrich (some "o") (some [(9, 9)]) 0
        { desc := "d", template_name := some "t",
          line_no := some 1, column_no := some 2 }).template_name = some "t"
    ∧ (evalEnrich (some "o") none 0
        { desc := "d", template_name := some "t",
          line_no := some 1, column_no := some 2 }).template_name = some "o"
    ∧ (renderEnrich (some "o") (some [(7, 8)]) 0
        { desc := "d", template_name := none,
          line_no := none, column_no := none }).line_no = some 7 :=
  ⟨(claim_C4.1 (some "o") (some [(9, 9)]) 0
      { desc := "d", template_name := some "t",
        line_no := some 1, column_no := some 2 } rfl).1,
   claim_C4.2.1 (some "o") (some [(9, 9)]) 0
      { desc := "d", template_name := some "t",
        line_no := some 1, column_no := some 2 } rfl,
   claim_C4.2.2.1 (some "o") none 0
      { desc := "d", template_name := some "t",
        line_no := some 1, column_no := some 2 },
   (claim_C4.2.2.2 (some "o") [(7, 8)] 0
      { desc := "d", template_name := none,
        line_no := none, column_no := none } (7, 8) rfl rfl).1⟩

/-- Claim C5: a top-level `Expression` pipes the rendered parameter value
through the registry's escape function unless `disable_escape` is set on the
render context; a `Subexpression` parameter instead renders its template into
a capture in a derived context with `disable_escape` forced to true and wraps
the captured text as a String value with path `None` — so the capture is the
same whatever the caller's `disable_escape` flag was. -/
theorem claim_C5 :
    (∀ (reg : Registry) (rc : RenderCtx) (p : Parameter),
      renderElem reg rc (.expression p)
        = (if !rc.disable_escape then
             reg.escape_fn ((Parameter.expand reg rc p).value.render)
           else (Parameter.expand reg rc p).value.render))
    ∧ (∀ (reg : Registry) (rc : RenderCtx) (t : List TemplateElement),
      Parameter.expand reg rc (.subexpression t)
        = ⟨none, Json.str (renderElems reg { rc with disable_escape := true } t)⟩)
    ∧ (∀ (reg : Registry) (rc : RenderCtx) (t : List TemplateElement) (b₁ b₂ : Bool),
      Parameter.expand reg { rc with disable_escape := b₁ } (.subexpression t)
        = Parameter.expand reg { rc with disable_escape := b₂ } (.subexpression t)) := by
  refine ⟨fun reg rc p => rfl, fun reg rc t => rfl, ?_⟩
  intro reg rc t b₁ b₂
  cases rc
  rfl

/-- Claim C6: extending twice with the same hash gives the same context as
extending once (the `BTreeMap` sortedness of the receiver's top-level object is
the Rust invariant carried as a hypothesis); a key written by the hash ends up
with the hash's (last) value, overwriting whatever the receiver held; `extend`
is a pure function of the receiver — the new context is built from copies and
the receiver is untouched; and the old value is wrapped under the key `this`
exactly when the receiver's data is not already an Object. -/
theorem claim_C6 (c : Context) (h : List (String × Json)) (hwf : Context.topSorted c) :
    Context.extend (Context.extend c h) h = Context.extend c h
    ∧ (∀ (k : String) (v : Json), lookupLast h k = some v →
        lookupA (applyInserts (baseMap c.data) h) k = some v)
    ∧ (∀ m : List (String × Json),
        Context.extend ⟨Json.obj m⟩ h = ⟨Json.obj (applyInserts m h)⟩)
    ∧ (Json.isObj c.data = false →
        Context.extend c h
          = ⟨Json.obj (applyInserts (insertBTree "this" c.data []) h)⟩) := by
  refine ⟨?_, ?_, fun m => rfl, ?_⟩
  · have hs := sortedMap_baseMap hwf
    show (⟨Json.obj (applyInserts (applyInserts (baseMap c.data) h) h)⟩ : Context)
        = ⟨Json.obj (applyInserts (baseMap c.data) h)⟩
    rw [applyInserts_idem h hs]
  · intro k v hkv
    rw [lookupA_applyInserts, hkv]
    rfl
  · intro hobj
    have hb : baseMap c.data = insertBTree "this" c.data [] := by
      unfold baseMap
      cases hd : c.data
      case obj m => rw [hd] at hobj; simp [Json.isObj] at hobj
      all_goals rfl
    show (⟨Json.obj (applyInserts (baseMap c.data) h)⟩ : Context) = _
    rw [hb]

/-- Witness for C6 at a non-Object receiver and a hash overwriting the
auto-injected `this` key. -/
theorem claim_C6_witness :
    Context.extend (Context.extend ⟨Json.str "hello"⟩ [("this", Json.str "x")])
        [("this", Json.str "x")]
      = Context.extend ⟨Json.str "hello"⟩ [("this", Json.str "x")]
    ∧ lookupA (applyInserts (baseMap (Context.mk (Json.str "hello")).data)
        [("this", Json.str "x")]) "this" = some (Json.str "x")
    ∧ Context.extend ⟨Json.str "hello"⟩ [("this", Json.str "x")]
      = ⟨Json.obj (applyInserts (insertBTree "this" (Json.str "hello") [])
          [("this", Json.str "x")])⟩ :=
  ⟨(claim_C6 ⟨Json.str "hello"⟩ [("this", Json.str "x")] (by trivial)).1,
   (claim_C6 ⟨Json.str "hello"⟩ [("this", Json.str "x")] (by trivial)).2.1
     "this" (Json.str "x") rfl,
   (claim_C6 ⟨Json.str "hello"⟩ [("this", Json.str "x")] (by trivial)).2.2.2 rfl⟩

/-- Counterexample to claim C1 as stated: an empty relative path does not
parse, so no segment is walked and navigation returns the root data unchanged
— `navigate` of a String root with path `""` yields that String, not the NULL
singleton the claim promises for empty paths. -/
theorem claim_C1_counterexample :
    Context.navigate ⟨Json.str "x"⟩ "." [] "" = Json.str "x"
    ∧ Json.str "x" ≠ Json.null :=
  ⟨rfl, fun h => nomatch h⟩

/-- Claim C1 (amended): navigation is total — `navigate` is a function
returning a Value for every input.  During the walk, a non-numeric or
out-of-range index into an Array, a missing Object key, and a step into a
non-container value each yield the NULL singleton, except for segments
spelled `this` taken by the skip branch; an empty relative path fails to parse
and navigation returns the data unchanged (NULL only when the data itself is
Null). -/
theorem claim_C1 :
    (∀ (c : Context) (b : String) (r : List String), Context.navigate c b r "" = c.data)
    ∧ (∀ (l : List Json) (p : String), parseUsize p = none →
        walkStep (.arr l) p = .null)
    ∧ (∀ (l : List Json) (p : String) (i : Nat), parseUsize p = some i →
        l.length ≤ i → walkStep (.arr l) p = .null)
    ∧ (∀ (m : List (String × Json)) (p : String), lookupA m p = none →
        walkStep (.obj m) p = .null)
    ∧ (∀ (d : Json) (p : String), Json.isContainer d = false → walkStep d p = .null)
    ∧ (∀ (d : Json) (p : String) (rest : List String), thisSkip d p = false →
        walk d (p :: rest) = walk (walkStep d p) rest) := by
  refine ⟨fun c b r => rfl, ?_, ?_, ?_, ?_, ?_⟩
  · intro l p hp
    simp [walkStep, hp]
  · intro l p i hp hi
    have hg : l[i]? = none := List.getElem?_eq_none hi
    simp [walkStep, hp, hg]
  · intro m p hp
    simp [walkStep, hp]
  · intro d p hd
    cases d <;> simp [Json.isContainer] at hd ⊢ <;> rfl
  · intro d p rest hskip
    simp [walk, hskip]

/-- Witness for C1 at concrete non-numeric, out-of-range, missing-key and
non-container inputs. -/
theorem claim_C1_witness :
    walkStep (Json.arr []) "x" = Json.null
    ∧ walkStep (Json.arr [Json.null]) "5" = Json.null
    ∧ walkStep (Json.obj []) "k" = Json.null
    ∧ walkStep (Json.bool true) "k" = Json.null
    ∧ walk (Json.bool true) ["k"] = walk (walkStep (Json.bool true) "k") [] :=
  ⟨claim_C1.2.1 [] "x" rfl,
   claim_C1.2.2.1 [Json.null] "5" 5 rfl (by decide),
   claim_C1.2.2.2.1 [] "k" rfl,
   claim_C1.2.2.2.2.1 (Json.bool true) "k" rfl,
   claim_C1.2.2.2.2.2 (Json.bool true) "k" [] rfl⟩

/-- Counterexample to claim C2 as stated: on a non-Object current value the
claim's `otherwise` branch demands that `this` be looked up as a real key —
which on a String value is the NULL-yielding non-container step — but the code
skips the segment and navigation returns the String itself. -/
theorem claim_C2_counterexample :
    Context.navigate ⟨Json.str "hello"⟩ "." [] "this" = Json.str "hello"
    ∧ walkStep (Json.str "hello") "this" = Json.null
    ∧ Json.str "hello" ≠ Json.null :=
  ⟨rfl, rfl, fun h => nomatch h⟩

/-- Claim C2 (amended): during the walk a segment spelled `this` is looked up
as a real key exactly when the current Value is an Object containing a literal
`this` key; otherwise — an Object without that key, or any non-Object value —
the segment is skipped as a no-op pass-through.  In particular, on an Object
root without a `this` key `navigate(".", [], "this")` returns the root itself,
and with a `this` key it returns that key's value. -/
theorem claim_C2 :
    (∀ (m : List (String × Json)) (rest : List String), lookupA m "this" = none →
      walk (Json.obj m) ("this" :: rest) = walk (Json.obj m) rest)
    ∧ (∀ (m : List (String × Json)) (rest : List String) (v : Json),
        lookupA m "this" = some v →
      walk (Json.obj m) ("this" :: rest) = walk v rest)
    ∧ (∀ (d : Json) (rest : List String), Json.as_object d = none →
      walk d ("this" :: rest) = walk d rest)
    ∧ (∀ m : List (String × Json), lookupA m "this" = none →
      Context.navigate ⟨Json.obj m⟩ "." [] "this" = Json.obj m)
    ∧ (∀ (m : List (String × Json)) (v : Json), lookupA m "this" = some v →
      Context.navigate ⟨Json.obj m⟩ "." [] "this" = v) := by
  have hvis : parse_json_visitor "." [] "this" = ["this"] := rfl
  refine ⟨?_, ?_, ?_, ?_, ?_⟩
  · intro m rest hm
    simp [walk, thisSkip, Json.as_object, hm]
  · intro m rest v hm
    simp [walk, thisSkip, Json.as_object, hm, walkStep]
  · intro d rest hd
    simp [walk, thisSkip, hd]
  · intro m hm
    show walk (Json.obj m) (parse_json_visitor "." [] "this") = Json.obj m
    rw [hvis]
    simp [walk, thisSkip, Json.as_object, hm]
  · intro m v hm
    show walk (Json.obj m) (parse_json_visitor "." [] "this") = v
    rw [hvis]
    simp [walk, thisSkip, Json.as_object, hm, walkStep]

/-- Witness for C2 at an Object without and an Object with a `this` key. -/
theorem claim_C2_witness :
    Context.navigate ⟨Json.obj [("age", Json.null)]⟩ "." [] "this"
      = Json.obj [("age", Json.null)]
    ∧ Context.navigate ⟨Json.obj [("this", Json.bool true)]⟩ "." [] "this"
      = Json.bool true :=
  ⟨claim_C2.2.2.2.1 [("age", Json.null)] rfl,
   claim_C2.2.2.2.2 [("this", Json.bool true)] (Json.bool true) rfl⟩

/-- Claim C3: with `k ≥ 1` leading `Up` segments in the relative path, the
walk starts from `local_path_root[k-1]` when that entry exists — the first
`../` selecting index 0 — and from the given base path otherwise; in
particular `navigate("./b", ["./a"], "../x")` resolves exactly as a navigation
based at `"./a"` would. -/
theorem claim_C3 :
    (∀ (base : String) (roots : List String) (rel : String) (segs : List PathSeg),
      parsePath rel = some segs → 0 < leadingUps segs →
      parse_json_visitor base roots rel
        = applySegs (parse_json_visitor_inner []
            ((roots.get? (leadingUps segs - 1)).getD base)) segs)
    ∧ (∀ c : Context,
        Context.navigate c "./b" ["./a"] "../x" = Context.navigate c "./a" [] "../x") := by
  constructor
  · intro base roots rel segs hparse hups
    unfold parse_json_visitor
    rw [hparse]
    simp [hups]
  · intro c
    rfl

/-- Witness for C3 at the path `"../x"` with one stacked root present. -/
theorem claim_C3_witness :
    parse_json_visitor "b0" ["r0"] "../x"
      = applySegs (parse_json_visitor_inner []
          ((["r0"].get? (leadingUps [PathSeg.up, PathSeg.id "x"] - 1)).getD "b0"))
        [PathSeg.up, PathSeg.id "x"] :=
  claim_C3.1 "b0" ["r0"] "../x" [PathSeg.up, PathSeg.id "x"] rfl (by decide)

/-- Claim C10: on every non-Object current value a segment spelled `this` is
skipped during the walk, just as for Objects lacking a `this` key, so
`navigate(".", [], "this")` on a non-Object root returns the root value itself
rather than NULL. -/
theorem claim_C10 (d : Json) (rest : List String) (hd : Json.isObj d = false) :
    walk d ("this" :: rest) = walk d rest
    ∧ Context.navigate ⟨d⟩ "." [] "this" = d := by
  have hobj : Json.as_object d = none := by
    cases d <;> simp [Json.isObj] at hd ⊢ <;> rfl
  constructor
  · simp [walk, thisSkip, hobj]
  · show walk d (parse_json_visitor "." [] "this") = d
    rw [show parse_json_visitor "." [] "this" = ["this"] from rfl]
    simp [walk, thisSkip, hobj]

/-- Witness for C10 at a Boolean root. -/
theorem claim_C10_witness :
    walk (Json.bool true) ["this"] = walk (Json.bool true) []
    ∧ Context.navigate ⟨Json.bool true⟩ "." [] "this" = Json.bool true :=
  claim_C10 (Json.bool true) [] rfl

end Hb
